import Mathlib

/-!
Verification of the discovery / promotion workflow of the crypto job tracker.

The Python sources embedded here:
  - src/discovery/parser.py   (extract_json_from_response, parse_jobs)
  - src/cli/discover.py       (run, promote, dismiss)
  - src/db/queries.py         (create/get/update operations used by those commands)
  - src/db/models.py          (row shapes)

Machinery notes:
  - JSON values are modelled by the inductive type `Json`; numbers keep their
    source lexeme, which is all the workflow ever inspects (Python truthiness).
  - `jsonParse` is an executable model of Python `json.loads` (strict mode):
    recursive descent with explicit fuel, accepting the RFC 8259 grammar plus
    the CPython extensions NaN / Infinity / -Infinity.
  - Persistence is a pure state (`DBState`); sqlite failures that are not
    determined by the modelled uniqueness constraints are driven by an explicit
    failure oracle, which over-approximates every exception the Python code
    catches.
-/

/-- A JSON value as produced by Python json.loads. Numbers keep their lexeme:
no claim depends on numeric magnitude, only on Python truthiness, which is
computable from the lexeme. -/
inductive Json where
  | null
  | bool (b : Bool)
  | num (lexeme : String)
  | str (s : String)
  | arr (elems : List Json)
  | obj (fields : List (String × Json))

/-- JSON structural whitespace, exactly the four characters json.loads skips. -/
def isJsonWs (c : Char) : Bool :=
  c = ' ' || c = '\t' || c = '\n' || c = '\r'

def skipWs (cs : List Char) : List Char :=
  cs.dropWhile isJsonWs

def hexVal (c : Char) : Option Nat :=
  if '0' ≤ c ∧ c ≤ '9' then some (c.toNat - 48)
  else if 'a' ≤ c ∧ c ≤ 'f' then some (c.toNat - 87)
  else if 'A' ≤ c ∧ c ≤ 'F' then some (c.toNat - 55)
  else none

def parseHex4 : List Char → Option (Nat × List Char)
  | a :: b :: c :: d :: rest =>
    match hexVal a, hexVal b, hexVal c, hexVal d with
    | some x, some y, some z, some w => some (((x * 16 + y) * 16 + z) * 16 + w, rest)
    | _, _, _, _ => none
  | _ => none

/-- One character of a surrogate escape that Python would keep as a lone
surrogate code unit; Lean characters cannot hold surrogates, so the model
substitutes U+FFFD. No claim inspects such strings. -/
def loneSurrogateChar : Char := Char.ofNat 0xFFFD

/-- Body of a JSON string literal, after the opening quote; mirrors CPython
py_scanstring in strict mode (raw control characters rejected, surrogate
pairs in \u escapes combined, lone surrogates tolerated). -/
def parseStrBody : Nat → List Char → List Char → Option (String × List Char)
  | 0, _, _ => none
  | _ + 1, [], _ => none
  | fuel + 1, c :: rest, acc =>
    if c = '"' then some (String.mk acc.reverse, rest)
    else if c = '\\' then
      match rest with
      | [] => none
      | e :: rest2 =>
        if e = '"' then parseStrBody fuel rest2 ('"' :: acc)
        else if e = '\\' then parseStrBody fuel rest2 ('\\' :: acc)
        else if e = '/' then parseStrBody fuel rest2 ('/' :: acc)
        else if e = 'b' then parseStrBody fuel rest2 ('\x08' :: acc)
        else if e = 'f' then parseStrBody fuel rest2 ('\x0c' :: acc)
        else if e = 'n' then parseStrBody fuel rest2 ('\n' :: acc)
        else if e = 'r' then parseStrBody fuel rest2 ('\r' :: acc)
        else if e = 't' then parseStrBody fuel rest2 ('\t' :: acc)
        else if e = 'u' then
          match parseHex4 rest2 with
          | none => none
          | some (n, rest3) =>
            if 0xD800 ≤ n ∧ n ≤ 0xDBFF then
              match rest3 with
              | '\\' :: 'u' :: rest4 =>
                match parseHex4 rest4 with
                | some (m, rest5) =>
                  if 0xDC00 ≤ m ∧ m ≤ 0xDFFF then
                    parseStrBody fuel rest5
                      (Char.ofNat (0x10000 + (n - 0xD800) * 0x400 + (m - 0xDC00)) :: acc)
                  else parseStrBody fuel rest3 (loneSurrogateChar :: acc)
                | none => parseStrBody fuel rest3 (loneSurrogateChar :: acc)
              | _ => parseStrBody fuel rest3 (loneSurrogateChar :: acc)
            else if 0xDC00 ≤ n ∧ n ≤ 0xDFFF then
              parseStrBody fuel rest3 (loneSurrogateChar :: acc)
            else
              parseStrBody fuel rest3 (Char.ofNat n :: acc)
        else none
    else if c.toNat < 0x20 then none
    else parseStrBody fuel rest (c :: acc)

/-- Removes the given literal from the front of the input, if present. -/
def stripLit : List Char → List Char → Option (List Char)
  | [], cs => some cs
  | _ :: _, [] => none
  | a :: l, b :: cs => if a = b then stripLit l cs else none

/-- Integer part of a JSON number: 0 or [1-9][0-9]*. -/
def lexIntPart : List Char → Option (List Char × List Char)
  | [] => none
  | c :: r =>
    if c = '0' then some (['0'], r)
    else if c.isDigit then
      some (((c :: r).takeWhile Char.isDigit), ((c :: r).dropWhile Char.isDigit))
    else none

/-- Fractional part (\.[0-9]+), or the empty lexeme. -/
def lexFracPart : List Char → List Char × List Char
  | '.' :: r =>
    if (r.takeWhile Char.isDigit).isEmpty then ([], '.' :: r)
    else ('.' :: r.takeWhile Char.isDigit, r.dropWhile Char.isDigit)
  | cs => ([], cs)

/-- Exponent part ([eE][+-]?[0-9]+), or the empty lexeme. -/
def lexExpPart : List Char → List Char × List Char
  | c :: r =>
    if c = 'e' ∨ c = 'E' then
      match r with
      | s :: r2 =>
        if s = '+' ∨ s = '-' then
          if (r2.takeWhile Char.isDigit).isEmpty then ([], c :: s :: r2)
          else (c :: s :: r2.takeWhile Char.isDigit, r2.dropWhile Char.isDigit)
        else
          if (r.takeWhile Char.isDigit).isEmpty then ([], c :: r)
          else (c :: r.takeWhile Char.isDigit, r.dropWhile Char.isDigit)
      | [] => ([], [c])
    else ([], c :: r)
  | [] => ([], [])

/-- Lexes a JSON number, returning its lexeme; grammar of RFC 8259. -/
def lexNum (cs : List Char) : Option (String × List Char) :=
  let (sgn, cs1) := match cs with
    | '-' :: r => (['-'], r)
    | _ => (([] : List Char), cs)
  match lexIntPart cs1 with
  | none => none
  | some (ip, r1) =>
    let (fp, r2) := lexFracPart r1
    let (ep, r3) := lexExpPart r2
    some (String.mk (sgn ++ ip ++ fp ++ ep), r3)

mutual

/-- One JSON value, mirroring the CPython scanner (with its NaN / Infinity /
-Infinity extensions). Leading whitespace is skipped. -/
def parseVal : Nat → List Char → Option (Json × List Char)
  | 0, _ => none
  | fuel + 1, cs0 =>
    let cs := skipWs cs0
    match cs with
    | [] => none
    | c :: rest =>
      if c = '"' then
        match parseStrBody fuel rest [] with
        | some (s, r) => some (.str s, r)
        | none => none
      else if c = '\x7b' then parseObjRest fuel rest
      else if c = '[' then parseArrRest fuel rest
      else
        match stripLit ['t', 'r', 'u', 'e'] cs with
        | some r => some (.bool true, r)
        | none =>
        match stripLit ['f', 'a', 'l', 's', 'e'] cs with
        | some r => some (.bool false, r)
        | none =>
        match stripLit ['n', 'u', 'l', 'l'] cs with
        | some r => some (.null, r)
        | none =>
        match stripLit ['N', 'a', 'N'] cs with
        | some r => some (.num "NaN", r)
        | none =>
        match stripLit ['I', 'n', 'f', 'i', 'n', 'i', 't', 'y'] cs with
        | some r => some (.num "Infinity", r)
        | none =>
        match stripLit ['-', 'I', 'n', 'f', 'i', 'n', 'i', 't', 'y'] cs with
        | some r => some (.num "-Infinity", r)
        | none =>
        match lexNum cs with
        | some (lx, r) => some (.num lx, r)
        | none => none

/-- The remainder of an array after the opening bracket. -/
def parseArrRest : Nat → List Char → Option (Json × List Char)
  | 0, _ => none
  | fuel + 1, cs =>
    match skipWs cs with
    | ']' :: r => some (.arr [], r)
    | cs1 => parseArrItems fuel cs1 []

def parseArrItems : Nat → List Char → List Json → Option (Json × List Char)
  | 0, _, _ => none
  | fuel + 1, cs, acc =>
    match parseVal fuel cs with
    | none => none
    | some (v, r) =>
      match skipWs r with
      | ',' :: r2 => parseArrItems fuel r2 (v :: acc)
      | ']' :: r2 => some (.arr (v :: acc).reverse, r2)
      | _ => none

/-- The remainder of an object after the opening brace. -/
def parseObjRest : Nat → List Char → Option (Json × List Char)
  | 0, _ => none
  | fuel + 1, cs =>
    match skipWs cs with
    | '\x7d' :: r => some (.obj [], r)
    | cs1 => parseObjItems fuel cs1 []

def parseObjItems : Nat → List Char → List (String × Json) → Option (Json × List Char)
  | 0, _, _ => none
  | fuel + 1, cs, acc =>
    match skipWs cs with
    | '"' :: r =>
      match parseStrBody fuel r [] with
      | none => none
      | some (k, r2) =>
        match skipWs r2 with
        | ':' :: r4 =>
          match parseVal fuel r4 with
          | none => none
          | some (v, r5) =>
            match skipWs r5 with
            | ',' :: r7 => parseObjItems fuel r7 ((k, v) :: acc)
            | '\x7d' :: r7 => some (.obj ((k, v) :: acc).reverse, r7)
            | _ => none
        | _ => none
    | _ => none

end

/-- Model of Python json.loads: parse one value, then require only trailing
whitespace. Returns none exactly where json.loads raises JSONDecodeError. -/
def jsonParse (s : String) : Option Json :=
  let cs := s.toList
  match parseVal (cs.length * 4 + 16) cs with
  | none => none
  | some (v, r) => if (skipWs r).isEmpty then some v else none

/-- Python truthiness of a JSON-decoded value. A number is falsy exactly when
its value is zero: no nonzero digit in the mantissa (the part before any
exponent marker); NaN and the infinities are truthy. -/
def numTruthy (lexeme : String) : Bool :=
  (lexeme.toList.takeWhile (fun c => c ≠ 'e' ∧ c ≠ 'E')).any
    (fun c => '1' ≤ c ∧ c ≤ '9') ||
  lexeme.toList.any (fun c => c = 'N' ∨ c = 'I')

def jsonTruthy : Json → Bool
  | .null => false
  | .bool b => b
  | .num lx => numTruthy lx
  | .str s => s ≠ ""
  | .arr elems => !elems.isEmpty
  | .obj fields => !fields.isEmpty

/-- Whitespace as stripped by Python str.strip() and matched by the regex
class \s, restricted to ASCII (the inputs of interest never hinge on the
non-ASCII Unicode spaces Python would also accept). -/
def isPySpace (c : Char) : Bool :=
  c = ' ' || c = '\t' || c = '\n' || c = '\r' || c = '\x0b' || c = '\x0c'

/-- Python str.strip() with no arguments. -/
def pyStrip (s : String) : String :=
  String.mk (((s.toList.dropWhile isPySpace).reverse.dropWhile isPySpace).reverse)

def isTick (c : Char) : Bool := c.toNat = 96

/-- Splits the input at the first occurrence of a triple-backtick fence,
returning the text before the fence and the text after it. -/
def splitAtFence : Nat → List Char → Option (List Char × List Char)
  | 0, _ => none
  | _ + 1, [] => none
  | fuel + 1, c :: rest =>
    if isTick c && (match rest with
        | b :: d :: _ => isTick b && isTick d
        | _ => false) then
      some ([], rest.drop 2)
    else
      match splitAtFence fuel rest with
      | some (pre, post) => some (c :: pre, post)
      | none => none

/-- All captures of the Python regex for fenced code blocks, three backticks,
an optional literal json tag, greedy whitespace, then a lazy capture up to the
closing fence; successive non-overlapping matches, as re.findall yields them. -/
def codeBlocksAux : Nat → List Char → List String
  | 0, _ => []
  | fuel + 1, cs =>
    match splitAtFence (cs.length + 1) cs with
    | none => []
    | some (_, afterOpen) =>
      let a1 := match stripLit ['j', 's', 'o', 'n'] afterOpen with
        | some r => r
        | none => afterOpen
      let a2 := a1.dropWhile isPySpace
      match splitAtFence (a2.length + 1) a2 with
      | none => []
      | some (capture, afterClose) => String.mk capture :: codeBlocksAux fuel afterClose

def codeBlocks (s : String) : List String :=
  codeBlocksAux (s.toList.length + 1) s.toList

/-- Index of the first element satisfying the predicate. -/
def firstIdx (p : Char → Bool) : List Char → Option Nat
  | [] => none
  | c :: r => if p c then some 0 else (firstIdx p r).map (· + 1)

/-- Index of the last element satisfying the predicate. -/
def lastIdx (p : Char → Bool) (cs : List Char) : Option Nat :=
  match firstIdx p cs.reverse with
  | some k => some (cs.length - 1 - k)
  | none => none

/-- The single match of the Python regex for a bracketed array candidate: it
is anchored at the first opening bracket and extends greedily to the last
closing bracket of the whole input (so re.findall yields at most one match);
the match is the opening bracket, the characters strictly between the two
anchors, and the closing bracket. -/
def arrMatch (s : String) : Option String :=
  let cs := s.toList
  match firstIdx (fun c => c = '[') cs, lastIdx (fun c => c = ']') cs with
  | some i, some j =>
    if i < j then
      some (String.mk ('[' :: (cs.drop (i + 1)).take (j - (i + 1)) ++ [']']))
    else none
  | _, _ => none

/-- Model of extract_json_from_response (src/discovery/parser.py): whole input
as JSON first, then each fenced code block stripped, then the bracketed
substring; only strings that parse as JSON are returned. -/
def extract_json_from_response (raw : String) : Option String :=
  if raw = "" then none
  else if (jsonParse raw).isSome then some raw
  else
    match (codeBlocks raw).find? (fun m => (jsonParse (pyStrip m)).isSome) with
    | some m => some (pyStrip m)
    | none =>
      match arrMatch raw with
      | some t => if (jsonParse t).isSome then some t else none
      | none => none

/-- A normalized job candidate, the dict built by parse_jobs for each element.
Fields hold the decoded JSON values; Python None is Json.null. -/
structure Candidate where
  title : Json
  company : Json
  url : Json
  requirements : Json
  parse_error : Bool

/-- Python dict lookup on the pair list of a decoded object: with duplicate
keys the later binding wins, as in the dict json.loads builds. -/
def objGet (fields : List (String × Json)) (k : String) : Option Json :=
  fields.foldl (fun acc p => if p.1 = k then some p.2 else acc) none

/-- Python str.startswith on the character lists (the byte-level built-in
does not reduce in the kernel). -/
def strStarts (s pre : String) : Bool :=
  (stripLit pre.toList s.toList).isSome

/-- The url validation step of parse_jobs: a falsy url is left untouched, a
truthy string without an http or https scheme is nulled out with the error
flag set, and a truthy non-string raises AttributeError (modelled as none)
because Python calls startswith on it. -/
def validateUrl (u : Json) : Option (Json × Bool) :=
  if jsonTruthy u then
    match u with
    | .str s =>
      if strStarts s "http://" || strStarts s "https://" then some (.str s, false)
      else some (.null, true)
    | _ => none
  else some (u, false)

/-- Normalization of one decoded dict element (parse_jobs loop body); none
means the uncaught AttributeError from a truthy non-string url. -/
def normalizeObj (fields : List (String × Json)) : Option Candidate :=
  let title := (objGet fields "title").getD (.str "[No Title]")
  let company := (objGet fields "company").getD (.str "Unknown")
  let url := (objGet fields "url").getD .null
  let reqs := (objGet fields "requirements").getD (.str "")
  match validateUrl url with
  | none => none
  | some (u, flag) => some ⟨title, company, u, reqs, flag⟩

/-- The parse_jobs loop over the decoded list: non-dict elements are skipped
silently, dict elements are normalized; none propagates the AttributeError. -/
def normalizeJobs : List Json → Option (List Candidate)
  | [] => some []
  | j :: rest =>
    match j with
    | .obj fields =>
      match normalizeObj fields with
      | none => none
      | some c =>
        match normalizeJobs rest with
        | none => none
        | some l => some (c :: l)
    | _ => normalizeJobs rest

/-- The synthetic candidate returned when nothing extractable was found. -/
def fallbackCand (raw : String) : Candidate :=
  ⟨.str "[PARSE ERROR]", .str "Unknown", .null,
    .str (if raw = "" then "Empty response" else raw.take 500), true⟩

/-- The synthetic candidate of the decode-failure branch. The interpolated
CPython decoder message is abstracted to its fixed prefix; the branch is
proved unreachable below, so the exact message never matters. -/
def decodeErrCand : Candidate :=
  ⟨.str "[PARSE ERROR]", .str "Unknown", .null, .str "JSON decode error", true⟩

/-- The synthetic candidate returned when normalization retained nothing. -/
def noValidJobsCand : Candidate :=
  ⟨.str "[PARSE ERROR]", .str "Unknown", .null,
    .str "No valid jobs found in response", true⟩

/-- Model of parse_jobs (src/discovery/parser.py): extraction, decoding,
wrapping a lone object into a list, per-element normalization, and the three
synthetic fallbacks; none is the uncaught AttributeError. -/
def parse_jobs (raw : String) : Option (List Candidate) :=
  match extract_json_from_response raw with
  | none => some [fallbackCand raw]
  | some js =>
    if js = "" then some [fallbackCand raw]
    else
      match jsonParse js with
      | none => some [decodeErrCand]
      | some v =>
        let elems := match v with
          | .arr l => l
          | other => [other]
        match normalizeJobs elems with
        | none => none
        | some cands => some (if cands.isEmpty then [noValidJobsCand] else cands)

/-- A row of the companies table (src/db/models.py Company); id is assigned
by the store. -/
structure CompanyRow where
  id : Nat
  name : String
  website : Option String
  sector : Option String
  chain_focus : Option String
  size : Option String
  notes : Option String
deriving DecidableEq

/-- A row of the jobs table (src/db/models.py Job), restricted to the fields
the promotion path writes. -/
structure JobRow where
  id : Nat
  company_id : Nat
  title : String
  url : Option String
  remote_status : Option String
  source : Option String
  notes : Option String
  status : String
deriving DecidableEq

/-- A row of the discovered_jobs staging table (src/db/models.py
DiscoveredJob). -/
structure DJRow where
  id : Nat
  title : Option String
  company_name : Option String
  url : Option String
  requirements_raw : Option String
  source : Option String
  raw_response : Option String
  discovered_at : Option String
  status : String
  promoted_to_job_id : Option Nat
deriving DecidableEq

/-- The persistent store: three tables in insertion (rowid) order plus the
next autoincrement ids, which sqlite starts at 1. -/
structure DBState where
  companies : List CompanyRow
  jobs : List JobRow
  discovered : List DJRow
  nextCompanyId : Nat
  nextJobId : Nat
  nextDiscoveredId : Nat
deriving DecidableEq

def DBState.init : DBState := ⟨[], [], [], 1, 1, 1⟩

/-- ASCII lowercasing, the semantics of sqlite LOWER used by
get_company_by_name. -/
def lowerAscii (s : String) : String :=
  String.mk (s.toList.map (fun c =>
    if 'A' ≤ c ∧ c ≤ 'Z' then Char.ofNat (c.toNat + 32) else c))

/-- get_company_by_name (src/db/queries.py): first row whose name matches
case-insensitively. -/
def get_company_by_name (st : DBState) (name : String) : Option CompanyRow :=
  st.companies.find? (fun c => lowerAscii c.name = lowerAscii name)

/-- get_discovered_job (src/db/queries.py): lookup by primary key. -/
def get_discovered_job (st : DBState) (djId : Nat) : Option DJRow :=
  st.discovered.find? (fun d => d.id = djId)

/-- update_discovered_job_status (src/db/queries.py): one UPDATE that writes
both the status column and the promoted_to_job_id column (the latter
defaulting to NULL at the call sites that omit it). -/
def update_discovered_job_status (l : List DJRow) (djId : Nat) (status : String)
    (pid : Option Nat) : List DJRow :=
  l.map (fun d => if d.id = djId then
    { d with status := status, promoted_to_job_id := pid } else d)

/-- discovered_job_exists (src/db/queries.py): url dedup against the staging
table. -/
def discovered_job_exists (st : DBState) (url : String) : Bool :=
  st.discovered.any (fun d => d.url = some url)

/-- job_url_exists (src/db/queries.py): url dedup against the jobs table. -/
def job_url_exists (st : DBState) (url : String) : Bool :=
  st.jobs.any (fun j => j.url = some url)

/-- Python truthiness of an Optional[str] field. -/
def strTruthy : Option String → Bool
  | none => false
  | some s => s ≠ ""

/-- Python expression x or d for an Optional[str] x and a literal default. -/
def pyOr (x : Option String) (d : String) : String :=
  match x with
  | some s => if s = "" then d else s
  | none => d

/-- The click-prompt convention x if x else None used for sector, chain
focus and notes in src/cli/discover.py. -/
def noneIfEmpty (s : String) : Option String :=
  if s = "" then none else some s

/-- The caller-supplied promotion inputs, as read by the interactive prompts
of the promote command. -/
structure PromoteArgs where
  sector : String
  chain_focus : String
  remote_status : String
  source : String
  notes : String

/-- Environmental persistence failures (the sqlite exceptions caught by the
CLI that are not forced by the modelled uniqueness constraints): one flag per
write the promotion path performs. -/
structure PersistOracle where
  companyFail : Bool
  jobFail : Bool
  updateFail : Bool

inductive PromoteErr where
  | notFound
  | already (status : String)
  | companyCreateFailed
  | jobCreateFailed
  | updateFailed
deriving DecidableEq

/-- Whether create_company raises: the modelled UNIQUE constraint on
companies.name (spec section 3; schema.sql is not in src) or an
environmental failure. -/
def companyCreateFails (st : DBState) (name : String) (orc : PersistOracle) : Bool :=
  orc.companyFail || st.companies.any (fun c => c.name = name)

/-- Whether create_job raises: the modelled UNIQUE constraint on jobs.url
(NULL urls never collide, as in sqlite) or an environmental failure. -/
def jobCreateFails (st : DBState) (url : Option String) (orc : PersistOracle) : Bool :=
  orc.jobFail || (match url with
    | some u => st.jobs.any (fun j => j.url = some u)
    | none => false)

/-- The tail of the promote command after the company id is settled: create
the Job (status always open), then mark the staging record promoted with the
new job id in one update; on failure the staging record is left untouched. -/
def promoteCreateJob (st : DBState) (djId : Nat) (dj : DJRow) (args : PromoteArgs)
    (orc : PersistOracle) (cid : Nat) : DBState × Except PromoteErr Nat :=
  if jobCreateFails st dj.url orc then (st, .error .jobCreateFailed)
  else
    let jid := st.nextJobId
    let newJob : JobRow :=
      { id := jid
        company_id := cid
        title := pyOr dj.title "Unknown"
        url := dj.url
        remote_status :=
          if args.remote_status = "remote" ∨ args.remote_status = "hybrid" ∨
              args.remote_status = "onsite"
          then some args.remote_status else none
        source := some args.source
        notes := noneIfEmpty args.notes
        status := "open" }
    let st2 := { st with jobs := st.jobs ++ [newJob], nextJobId := jid + 1 }
    if orc.updateFail then (st2, .error .updateFailed)
    else
      ({ st2 with
          discovered := update_discovered_job_status st2.discovered djId "promoted" (some jid) },
        .ok jid)

/-- The promote command (src/cli/discover.py): refuse non-pending records,
reuse a case-insensitive company match, otherwise create a company from the
discovered name (Unknown when empty) and the prompted sector / chain focus,
then create the job and update the staging record. -/
def promote (st : DBState) (djId : Nat) (args : PromoteArgs) (orc : PersistOracle) :
    DBState × Except PromoteErr Nat :=
  match get_discovered_job st djId with
  | none => (st, .error .notFound)
  | some dj =>
    if dj.status ≠ "pending" then (st, .error (.already dj.status))
    else
      let companyHit : Option CompanyRow :=
        if strTruthy dj.company_name then get_company_by_name st (dj.company_name.getD "")
        else none
      match companyHit with
      | some c => promoteCreateJob st djId dj args orc c.id
      | none =>
        let cname := pyOr dj.company_name "Unknown"
        if companyCreateFails st cname orc then (st, .error .companyCreateFailed)
        else
          let newCo : CompanyRow :=
            { id := st.nextCompanyId
              name := cname
              website := none
              sector := noneIfEmpty args.sector
              chain_focus := noneIfEmpty args.chain_focus
              size := none
              notes := none }
          let st1 := { st with
            companies := st.companies ++ [newCo]
            nextCompanyId := st.nextCompanyId + 1 }
          promoteCreateJob st1 djId dj args orc newCo.id

/-- The dismiss command (src/cli/discover.py): refuse non-pending records;
after the interactive confirmation, one update writes status dismissed (and,
per update_discovered_job_status, NULL into promoted_to_job_id). -/
def dismiss (st : DBState) (djId : Nat) (confirmed : Bool) :
    DBState × Except PromoteErr Unit :=
  match get_discovered_job st djId with
  | none => (st, .error .notFound)
  | some dj =>
    if dj.status ≠ "pending" then (st, .error (.already dj.status))
    else if confirmed then
      ({ st with discovered := update_discovered_job_status st.discovered djId "dismissed" none },
        .ok ())
    else (st, .ok ())

/-- Storage of a decoded JSON value in a TEXT column of the staging row.
Strings are stored as-is and null as NULL; other payloads (which sqlite would
store under their own type, or reject) are collapsed to NULL — no claim
depends on stored non-string payloads, and an insert failure of any kind is
already covered by the failure oracle. -/
def Json.asCell : Json → Option String
  | .str s => some s
  | _ => none

/-- Per-candidate failure flags for create_discovered_job in the discovery
loop (the except Exception branch of the run command). -/
def runInsertFails (fail : Nat → Bool) (i : Nat) : Bool := fail i

/-- The staging row the run command inserts for a fresh candidate: status
pending, the full raw response retained, promoted_to_job_id NULL, source
perplexity, discovered_at filled by the store. -/
def mkDiscoveredRow (st : DBState) (c : Candidate) (raw : String)
    (now : Option String) : DJRow :=
  { id := st.nextDiscoveredId
    title := c.title.asCell
    company_name := c.company.asCell
    url := c.url.asCell
    requirements_raw := c.requirements.asCell
    source := some "perplexity"
    raw_response := some raw
    discovered_at := now
    status := "pending"
    promoted_to_job_id := none }

/-- The dedup check of the run command on the url value the candidate
carries: sqlite compares the bound value against the TEXT url columns, so
only a string can match. -/
def urlSeen (st : DBState) (u : Json) : Bool :=
  match u with
  | .str s => discovered_job_exists st s || job_url_exists st s
  | _ => false

/-- The candidate loop of the run command (src/cli/discover.py): each
candidate increments exactly one of the counters new / duplicate / error;
a persistence failure is counted and the loop continues. Returns the final
state and the three counters. -/
def runLoop (st : DBState) (cands : List Candidate) (fail : Nat → Bool) (i : Nat)
    (raw : String) (now : Option String) : DBState × Nat × Nat × Nat :=
  match cands with
  | [] => (st, 0, 0, 0)
  | c :: rest =>
    if c.parse_error then
      let (st1, n, d, e) := runLoop st rest fail (i + 1) raw now
      (st1, n, d, e + 1)
    else if !jsonTruthy c.url then
      let (st1, n, d, e) := runLoop st rest fail (i + 1) raw now
      (st1, n, d, e + 1)
    else if urlSeen st c.url then
      let (st1, n, d, e) := runLoop st rest fail (i + 1) raw now
      (st1, n, d + 1, e)
    else if runInsertFails fail i then
      let (st1, n, d, e) := runLoop st rest fail (i + 1) raw now
      (st1, n, d, e + 1)
    else
      let stIns := { st with
        discovered := st.discovered ++ [mkDiscoveredRow st c raw now]
        nextDiscoveredId := st.nextDiscoveredId + 1 }
      let (st1, n, d, e) := runLoop stIns rest fail (i + 1) raw now
      (st1, n + 1, d, e)

/-- States reachable through the discovery workflow operations alone: the
empty store, a discovery cycle, a promotion attempt, a dismissal attempt. -/
inductive Reachable : DBState → Prop where
  | init : Reachable DBState.init
  | run (st : DBState) (cands : List Candidate) (fail : Nat → Bool) (i : Nat)
      (raw : String) (now : Option String) :
      Reachable st → Reachable (runLoop st cands fail i raw now).1
  | promote (st : DBState) (djId : Nat) (args : PromoteArgs) (orc : PersistOracle) :
      Reachable st → Reachable (promote st djId args orc).1
  | dismiss (st : DBState) (djId : Nat) (confirmed : Bool) :
      Reachable st → Reachable (dismiss st djId confirmed).1

/-- All contiguous substrings of a string (with repetitions), as drop-then-
take windows; used to state that no bracketed substring of an input parses
as JSON. -/
def subStrs (s : String) : List String :=
  let cs := s.toList
  ((List.range (cs.length + 1)).map (fun i =>
    (List.range (cs.length + 1)).map (fun k => String.mk ((cs.drop i).take k)))).flatten

/-- A well-formed job object in the sense of the spec: a dict whose url,
when present, is a string with an http or https scheme. -/
def wellFormedJob : Json → Bool
  | .obj fields =>
    match objGet fields "url" with
    | none => true
    | some (.str s) => strStarts s "http://" || strStarts s "https://"
    | some _ => false
  | _ => false

/-- The name the promotion path looks up: the discovered company name, or the
empty string when the record has none. -/
def discoveredName (dj : DJRow) : String :=
  dj.company_name.getD ""

/-- The job row the promotion path inserts, given the settled company id. -/
def jobRowOf (st : DBState) (dj : DJRow) (args : PromoteArgs) (cid : Nat) : JobRow :=
  { id := st.nextJobId
    company_id := cid
    title := pyOr dj.title "Unknown"
    url := dj.url
    remote_status :=
      if args.remote_status = "remote" ∨ args.remote_status = "hybrid" ∨
          args.remote_status = "onsite"
      then some args.remote_status else none
    source := some args.source
    notes := noneIfEmpty args.notes
    status := "open" }

/-- The staging invariant of the discovery workflow: a discovered job carries
a promoted_to_job_id exactly when its status is promoted. -/
def DJInv (st : DBState) : Prop :=
  ∀ dj ∈ st.discovered, (dj.promoted_to_job_id ≠ none ↔ dj.status = "promoted")

/-- A sample staging record used by the concrete witnesses. -/
def sampleDJ (status : String) : DJRow :=
  { id := 1
    title := some "Data Analyst"
    company_name := some "Chainlink"
    url := some "https://x.com/1"
    requirements_raw := some "SQL"
    source := some "perplexity"
    raw_response := some "raw"
    discovered_at := some "2026-01-01"
    status := status
    promoted_to_job_id := none }

/-- A sample store holding just the sample staging record. -/
def sampleSt (status : String) : DBState :=
  { companies := []
    jobs := []
    discovered := [sampleDJ status]
    nextCompanyId := 1
    nextJobId := 1
    nextDiscoveredId := 2 }

def sampleArgs : PromoteArgs :=
  { sector := "Infrastructure"
    chain_focus := "Ethereum"
    remote_status := "remote"
    source := "perplexity"
    notes := "" }

def okOracle : PersistOracle := ⟨false, false, false⟩

/-- A sample parser candidate used by the concrete witnesses. -/
def sampleCand : Candidate :=
  ⟨.str "Data Analyst", .str "Chainlink", .str "https://x.com/1", .str "SQL", false⟩

/-! Helper lemmas shared by the claim theorems. -/

theorem find_update_status (l : List DJRow) (djId : Nat) (stat : String)
    (pid : Option Nat) (dj : DJRow)
    (h : l.find? (fun d => d.id = djId) = some dj) :
    (update_discovered_job_status l djId stat pid).find? (fun d => d.id = djId) =
      some { dj with status := stat, promoted_to_job_id := pid } := by
  induction l with
  | nil => simp [List.find?] at h
  | cons a t ih =>
    by_cases ha : a.id = djId
    · rw [List.find?_cons_of_pos _ (by simpa using ha)] at h
      have hadj : a = dj := by simpa using h
      subst hadj
      show (List.map _ (a :: t)).find? _ = _
      rw [List.map_cons, if_pos ha,
        List.find?_cons_of_pos _ (by simpa using ha)]
    · rw [List.find?_cons_of_neg _ (by simpa using ha)] at h
      show (List.map _ (a :: t)).find? _ = _
      rw [List.map_cons, if_neg ha,
        List.find?_cons_of_neg _ (by simpa using ha)]
      exact ih h

theorem mem_update_status (l : List DJRow) (djId : Nat) (stat : String)
    (pid : Option Nat) (d' : DJRow)
    (h : d' ∈ update_discovered_job_status l djId stat pid) :
    (∃ d ∈ l, d' = { d with status := stat, promoted_to_job_id := pid }) ∨ d' ∈ l := by
  rcases List.mem_map.mp h with ⟨d, hd, hin⟩
  by_cases hid : d.id = djId
  · exact Or.inl ⟨d, hd, by rw [← hin]; simp [hid]⟩
  · right
    rw [← hin, if_neg hid]
    exact hd

theorem promoteCreateJob_err_frame (st : DBState) (djId : Nat) (dj : DJRow)
    (args : PromoteArgs) (orc : PersistOracle) (cid : Nat) (st' : DBState)
    (e : PromoteErr)
    (h : promoteCreateJob st djId dj args orc cid = (st', .error e)) :
    st'.discovered = st.discovered := by
  unfold promoteCreateJob at h
  by_cases hj : jobCreateFails st dj.url orc
  · rw [if_pos hj] at h
    cases h
    rfl
  · rw [if_neg hj] at h
    by_cases hu : orc.updateFail
    · rw [if_pos hu] at h
      cases h
      rfl
    · rw [if_neg hu] at h
      cases h

theorem promoteCreateJob_ok_spec (st : DBState) (djId : Nat) (dj : DJRow)
    (args : PromoteArgs) (orc : PersistOracle) (cid : Nat) (st' : DBState)
    (jid : Nat)
    (hfind : st.discovered.find? (fun d => d.id = djId) = some dj)
    (h : promoteCreateJob st djId dj args orc cid = (st', .ok jid)) :
    jid = st.nextJobId ∧
    st'.companies = st.companies ∧
    st'.jobs = st.jobs ++ [jobRowOf st dj args cid] ∧
    get_discovered_job st' djId =
      some { dj with status := "promoted", promoted_to_job_id := some jid } := by
  unfold promoteCreateJob at h
  by_cases hj : jobCreateFails st dj.url orc
  · rw [if_pos hj] at h
    cases h
  · rw [if_neg hj] at h
    by_cases hu : orc.updateFail
    · rw [if_pos hu] at h
      cases h
    · rw [if_neg hu] at h
      have hst : st' = { st with
          jobs := st.jobs ++ [jobRowOf st dj args cid]
          nextJobId := st.nextJobId + 1
          discovered :=
            update_discovered_job_status st.discovered djId "promoted" (some st.nextJobId) } := by
        have := congrArg Prod.fst h
        simp at this
        rw [← this]
        rfl
      have hjid : jid = st.nextJobId := by
        have := congrArg Prod.snd h
        simp at this
        exact this.symm
      subst hjid
      subst hst
      refine ⟨rfl, rfl, rfl, ?_⟩
      exact find_update_status st.discovered djId "promoted" (some st.nextJobId) dj hfind

/-- C1: promotion and dismissal are only legal from the pending state: on a
record whose status is promoted, dismissed or saved, both commands fail with
the already-status error and leave the whole store, hence the record,
unchanged, before any company or job is created. -/
theorem C1_terminal_states (st : DBState) (djId : Nat) (args : PromoteArgs)
    (orc : PersistOracle) (confirmed : Bool) (dj : DJRow)
    (hfind : get_discovered_job st djId = some dj)
    (hst : dj.status = "promoted" ∨ dj.status = "dismissed" ∨ dj.status = "saved") :
    promote st djId args orc = (st, .error (.already dj.status)) ∧
    dismiss st djId confirmed = (st, .error (.already dj.status)) := by
  have hne : dj.status ≠ "pending" := by
    rcases hst with h | h | h <;> simp [h]
  constructor
  · unfold promote
    rw [hfind]
    simp only [hne, ne_eq, not_false_eq_true, if_true]
  · unfold dismiss
    rw [hfind]
    simp only [hne, ne_eq, not_false_eq_true, if_true]

theorem C1_witness :
    promote (sampleSt "promoted") 1 sampleArgs okOracle =
      (sampleSt "promoted", .error (.already "promoted")) ∧
    dismiss (sampleSt "promoted") 1 true =
      (sampleSt "promoted", .error (.already "promoted")) :=
  C1_terminal_states (sampleSt "promoted") 1 sampleArgs okOracle true
    (sampleDJ "promoted") rfl (Or.inl rfl)

/-- C9: dismissing a pending record (whose promoted_to_job_id is null, as it
is for every record the workflow can produce, see the C10 invariant) succeeds
and changes only the status field to dismissed; every other field keeps its
previous value. -/
theorem C9_dismiss_frame (st : DBState) (djId : Nat) (dj : DJRow)
    (hfind : get_discovered_job st djId = some dj)
    (hpend : dj.status = "pending")
    (hnull : dj.promoted_to_job_id = none) :
    (dismiss st djId true).2 = .ok () ∧
    get_discovered_job (dismiss st djId true).1 djId =
      some { dj with status := "dismissed" } := by
  have hres : dismiss st djId true =
      ({ st with discovered := update_discovered_job_status st.discovered djId "dismissed" none },
        .ok ()) := by
    unfold dismiss
    rw [hfind]
    simp [hpend]
  rw [hres]
  refine ⟨rfl, ?_⟩
  show (update_discovered_job_status st.discovered djId "dismissed" none).find? _ = _
  rw [find_update_status st.discovered djId "dismissed" none dj hfind]
  congr 1
  cases dj
  simp only [DJRow.mk.injEq] at *
  simp [← hnull]

theorem C9_witness :
    (dismiss (sampleSt "pending") 1 true).2 = .ok () ∧
    get_discovered_job (dismiss (sampleSt "pending") 1 true).1 1 =
      some { sampleDJ "pending" with status := "dismissed" } :=
  C9_dismiss_frame (sampleSt "pending") 1 (sampleDJ "pending") rfl rfl rfl

/-- C3: if any persistence step of a promotion fails (company creation, job
creation, or the status update), the promotion aborts with an error and the
staging table is untouched: the record is still exactly as before, in
particular still pending with its promoted_to_job_id unchanged, and it is
never marked promoted when job creation raised. -/
theorem C3_promotion_abort (st : DBState) (djId : Nat) (args : PromoteArgs)
    (orc : PersistOracle) (dj : DJRow) (st' : DBState) (e : PromoteErr)
    (hfind : get_discovered_job st djId = some dj)
    (hpend : dj.status = "pending")
    (herr : promote st djId args orc = (st', .error e)) :
    st'.discovered = st.discovered ∧
    get_discovered_job st' djId = some dj ∧ dj.status = "pending" := by
  have hdisc : st'.discovered = st.discovered := by
    unfold promote at herr
    rw [hfind] at herr
    simp only [hpend, ne_eq, not_true_eq_false, if_false] at herr
    by_cases hc : strTruthy dj.company_name
    · simp only [hc, if_pos] at herr
      cases hhit : get_company_by_name st (dj.company_name.getD "") with
      | some c =>
        rw [hhit] at herr
        exact promoteCreateJob_err_frame st djId dj args orc c.id st' e herr
      | none =>
        rw [hhit] at herr
        by_cases hcf : companyCreateFails st (pyOr dj.company_name "Unknown") orc
        · simp only [hcf, if_pos] at herr
          cases herr
          rfl
        · simp [hcf] at herr
          have h2 := promoteCreateJob_err_frame _ djId dj args orc _ st' e herr
          exact h2
    · simp [hc] at herr
      by_cases hcf : companyCreateFails st (pyOr dj.company_name "Unknown") orc
      · simp only [hcf, if_pos] at herr
        cases herr
        rfl
      · simp [hcf] at herr
        have h2 := promoteCreateJob_err_frame _ djId dj args orc _ st' e herr
        exact h2
  refine ⟨hdisc, ?_, hpend⟩
  show st'.discovered.find? _ = some dj
  rw [hdisc]
  exact hfind

theorem C3_witness :
    ((promote (sampleSt "pending") 1 sampleArgs ⟨false, true, false⟩).1.discovered =
      (sampleSt "pending").discovered ∧
    get_discovered_job (promote (sampleSt "pending") 1 sampleArgs ⟨false, true, false⟩).1 1 =
      some (sampleDJ "pending") ∧ (sampleDJ "pending").status = "pending") :=
  C3_promotion_abort (sampleSt "pending") 1 sampleArgs ⟨false, true, false⟩
    (sampleDJ "pending")
    (promote (sampleSt "pending") 1 sampleArgs ⟨false, true, false⟩).1
    PromoteErr.jobCreateFailed rfl rfl (by rfl)

theorem lowerAscii_eq_empty (s : String) (h : lowerAscii s = "") : s = "" := by
  cases s with
  | mk data =>
    cases data with
    | nil => rfl
    | cons a t =>
      exfalso
      have hd := congrArg String.data h
      unfold lowerAscii at hd
      simp [String.toList] at hd

/-- C2: a successful promotion of a pending record (in a store whose company
names are nonempty, as the data model requires, and with a valid caller
remote-status) reuses the id of a case-insensitive company match when one
exists — creating no company row — and otherwise appends exactly one company
built from the discovered name (Unknown when the record has none) and the
caller sector / chain focus; it then appends exactly one job under that
company with the discovered title (Unknown fallback), the discovered url, the
caller remote-status, source and notes, and status open; finally the staging
record is marked promoted with promoted_to_job_id equal to the new job id. -/
theorem C2_promotion_success (st : DBState) (djId : Nat) (args : PromoteArgs)
    (orc : PersistOracle) (dj : DJRow) (st' : DBState) (jid : Nat)
    (hfind : get_discovered_job st djId = some dj)
    (hpend : dj.status = "pending")
    (hwf : ∀ c ∈ st.companies, c.name ≠ "")
    (hremote : args.remote_status = "remote" ∨ args.remote_status = "hybrid" ∨
      args.remote_status = "onsite")
    (hok : promote st djId args orc = (st', .ok jid)) :
    ∃ cid,
      ((∃ c, get_company_by_name st (discoveredName dj) = some c ∧ cid = c.id ∧
          st'.companies = st.companies) ∨
        (get_company_by_name st (discoveredName dj) = none ∧
          cid = st.nextCompanyId ∧
          st'.companies = st.companies ++
            [⟨st.nextCompanyId, pyOr dj.company_name "Unknown", none,
              noneIfEmpty args.sector, noneIfEmpty args.chain_focus, none, none⟩])) ∧
      st'.jobs = st.jobs ++
        [⟨jid, cid, pyOr dj.title "Unknown", dj.url, some args.remote_status,
          some args.source, noneIfEmpty args.notes, "open"⟩] ∧
      get_discovered_job st' djId =
        some { dj with status := "promoted", promoted_to_job_id := some jid } := by
  have hrs : (if args.remote_status = "remote" ∨ args.remote_status = "hybrid" ∨
      args.remote_status = "onsite" then some args.remote_status else none) =
      some args.remote_status := if_pos hremote
  unfold promote at hok
  rw [hfind] at hok
  simp only [hpend, ne_eq, not_true_eq_false, if_false] at hok
  by_cases hc : strTruthy dj.company_name
  · simp only [hc, if_pos] at hok
    have hname : discoveredName dj = dj.company_name.getD "" := rfl
    cases hhit : get_company_by_name st (dj.company_name.getD "") with
    | some c =>
      rw [hhit] at hok
      obtain ⟨hjid, hco, hjobs, hdj⟩ :=
        promoteCreateJob_ok_spec st djId dj args orc c.id st' jid hfind hok
      refine ⟨c.id, Or.inl ⟨c, by rw [hname, hhit], rfl, hco⟩, ?_, hdj⟩
      rw [hjobs]
      unfold jobRowOf
      rw [hrs, hjid]
    | none =>
      rw [hhit] at hok
      by_cases hcf : companyCreateFails st (pyOr dj.company_name "Unknown") orc
      · simp only [hcf, if_pos] at hok
        cases hok
      · simp [hcf] at hok
        obtain ⟨hjid, hco, hjobs, hdj⟩ :=
          promoteCreateJob_ok_spec
            ({ st with
              companies := st.companies ++
                [⟨st.nextCompanyId, pyOr dj.company_name "Unknown", none,
                  noneIfEmpty args.sector, noneIfEmpty args.chain_focus, none, none⟩]
              nextCompanyId := st.nextCompanyId + 1 })
            djId dj args orc st.nextCompanyId st' jid hfind hok
        refine ⟨st.nextCompanyId, Or.inr ⟨by rw [hname, hhit], rfl, hco⟩, ?_, hdj⟩
        rw [hjobs]
        unfold jobRowOf
        rw [hrs, hjid]
  · simp [hc] at hok
    have hnone : get_company_by_name st (discoveredName dj) = none := by
      unfold get_company_by_name
      rw [List.find?_eq_none]
      intro c hcmem
      have hdn : discoveredName dj = "" := by
        unfold discoveredName
        unfold strTruthy at hc
        cases hv : dj.company_name with
        | none => rfl
        | some s =>
          rw [hv] at hc
          simpa using hc
      rw [hdn]
      simp only [decide_eq_true_eq]
      intro habs
      exact hwf c hcmem (lowerAscii_eq_empty c.name habs)
    by_cases hcf : companyCreateFails st (pyOr dj.company_name "Unknown") orc
    · simp only [hcf, if_pos] at hok
      cases hok
    · simp [hcf] at hok
      obtain ⟨hjid, hco, hjobs, hdj⟩ :=
        promoteCreateJob_ok_spec
          ({ st with
              companies := st.companies ++
                [⟨st.nextCompanyId, pyOr dj.company_name "Unknown", none,
                  noneIfEmpty args.sector, noneIfEmpty args.chain_focus, none, none⟩]
              nextCompanyId := st.nextCompanyId + 1 })
          djId dj args orc st.nextCompanyId st' jid hfind hok
      refine ⟨st.nextCompanyId, Or.inr ⟨hnone, rfl, hco⟩, ?_, hdj⟩
      rw [hjobs]
      unfold jobRowOf
      rw [hrs, hjid]

theorem C2_witness :
    (promote (sampleSt "pending") 1 sampleArgs okOracle).1.jobs =
      [⟨1, 1, "Data Analyst", some "https://x.com/1", some "remote",
        some "perplexity", none, "open"⟩] ∧
    get_discovered_job (promote (sampleSt "pending") 1 sampleArgs okOracle).1 1 =
      some { sampleDJ "pending" with
        status := "promoted", promoted_to_job_id := some 1 } := by
  obtain ⟨cid, hdisj, hjobs, hdj⟩ :=
    C2_promotion_success (sampleSt "pending") 1 sampleArgs okOracle (sampleDJ "pending")
      (promote (sampleSt "pending") 1 sampleArgs okOracle).1 1 rfl rfl
      (by intro c hc; simp [sampleSt] at hc) (Or.inl rfl) rfl
  rcases hdisj with ⟨c, hc, _, _⟩ | ⟨_, hcid, _⟩
  · exact Option.noConfusion hc
  · subst hcid
    exact ⟨hjobs, hdj⟩

theorem runLoop_sum (cands : List Candidate) : ∀ (st : DBState) (fail : Nat → Bool)
    (i : Nat) (raw : String) (now : Option String),
    (runLoop st cands fail i raw now).2.1 + (runLoop st cands fail i raw now).2.2.1 +
      (runLoop st cands fail i raw now).2.2.2 = cands.length := by
  induction cands with
  | nil =>
    intro st fail i raw now
    simp [runLoop]
  | cons c rest ih =>
    intro st fail i raw now
    have H := ih st fail (i + 1) raw now
    have H2 := ih { st with
      discovered := st.discovered ++ [mkDiscoveredRow st c raw now]
      nextDiscoveredId := st.nextDiscoveredId + 1 } fail (i + 1) raw now
    rcases hr : runLoop st rest fail (i + 1) raw now with ⟨st1, n, d, e⟩
    rcases hr2 : runLoop { st with
      discovered := st.discovered ++ [mkDiscoveredRow st c raw now]
      nextDiscoveredId := st.nextDiscoveredId + 1 } rest fail (i + 1) raw now
      with ⟨st2, n2, d2, e2⟩
    rw [hr] at H
    rw [hr2] at H2
    simp only at H H2
    simp only [runLoop, hr, hr2]
    split_ifs <;> simp <;> omega

/-- C6: for every candidate list the parser returns for a cycle, the run
command counters satisfy new + duplicate + error = number of candidates:
each candidate increments exactly one counter and a persistence failure on
one candidate (the failure flags) does not stop the remaining candidates
from being processed and counted. -/
theorem C6_counters (raw : String) (cands : List Candidate) (st : DBState)
    (fail : Nat → Bool) (i : Nat) (now : Option String)
    (hp : parse_jobs raw = some cands) :
    (runLoop st cands fail i raw now).2.1 + (runLoop st cands fail i raw now).2.2.1 +
      (runLoop st cands fail i raw now).2.2.2 = cands.length :=
  runLoop_sum cands st fail i raw now

theorem C6_witness :
    (runLoop DBState.init [noValidJobsCand] (fun _ => false) 0 "[]" none).2.1 +
      (runLoop DBState.init [noValidJobsCand] (fun _ => false) 0 "[]" none).2.2.1 +
      (runLoop DBState.init [noValidJobsCand] (fun _ => false) 0 "[]" none).2.2.2 =
      [noValidJobsCand].length :=
  C6_counters "[]" [noValidJobsCand] DBState.init (fun _ => false) 0 none rfl

theorem DJInv_runLoop (cands : List Candidate) : ∀ (st : DBState) (fail : Nat → Bool)
    (i : Nat) (raw : String) (now : Option String),
    DJInv st → DJInv (runLoop st cands fail i raw now).1 := by
  induction cands with
  | nil =>
    intro st fail i raw now h
    simpa [runLoop] using h
  | cons c rest ih =>
    intro st fail i raw now h
    have hIns : DJInv { st with
        discovered := st.discovered ++ [mkDiscoveredRow st c raw now]
        nextDiscoveredId := st.nextDiscoveredId + 1 } := by
      intro dj hm
      simp only [List.mem_append, List.mem_singleton] at hm
      rcases hm with hm | hm
      · exact h dj hm
      · subst hm
        simp [mkDiscoveredRow]
    rcases hr : runLoop st rest fail (i + 1) raw now with ⟨st1, n, d, e⟩
    rcases hr2 : runLoop { st with
      discovered := st.discovered ++ [mkDiscoveredRow st c raw now]
      nextDiscoveredId := st.nextDiscoveredId + 1 } rest fail (i + 1) raw now
      with ⟨st2, n2, d2, e2⟩
    have H1 : DJInv st1 := by
      have := ih st fail (i + 1) raw now h
      rwa [hr] at this
    have H2 : DJInv st2 := by
      have := ih _ fail (i + 1) raw now hIns
      rwa [hr2] at this
    simp only [runLoop, hr, hr2]
    split_ifs <;> first | exact H1 | exact H2

theorem promoteCreateJob_discovered_shape (st : DBState) (djId : Nat) (dj : DJRow)
    (args : PromoteArgs) (orc : PersistOracle) (cid : Nat) :
    (promoteCreateJob st djId dj args orc cid).1.discovered = st.discovered ∨
    ∃ jid, (promoteCreateJob st djId dj args orc cid).1.discovered =
      update_discovered_job_status st.discovered djId "promoted" (some jid) := by
  unfold promoteCreateJob
  by_cases hj : jobCreateFails st dj.url orc
  · simp [hj]
  · by_cases hu : orc.updateFail
    · simp [hj, hu]
    · simp only [hj, hu]
      right
      exact ⟨st.nextJobId, by simp⟩

theorem promote_discovered_shape (st : DBState) (djId : Nat) (args : PromoteArgs)
    (orc : PersistOracle) :
    (promote st djId args orc).1.discovered = st.discovered ∨
    ∃ jid, (promote st djId args orc).1.discovered =
      update_discovered_job_status st.discovered djId "promoted" (some jid) := by
  unfold promote
  cases hf : get_discovered_job st djId with
  | none => simp
  | some dj =>
    by_cases hs : dj.status ≠ "pending"
    · simp [hs]
    · simp only [hs, if_false]
      by_cases hc : strTruthy dj.company_name
      · simp only [hc, if_pos]
        cases hhit : get_company_by_name st (dj.company_name.getD "") with
        | some c =>
          simpa using promoteCreateJob_discovered_shape st djId dj args orc c.id
        | none =>
          by_cases hcf : companyCreateFails st (pyOr dj.company_name "Unknown") orc
          · simp [hcf]
          · simp only [hcf]
            simpa using promoteCreateJob_discovered_shape
              { st with
                companies := st.companies ++
                  [⟨st.nextCompanyId, pyOr dj.company_name "Unknown", none,
                    noneIfEmpty args.sector, noneIfEmpty args.chain_focus, none, none⟩]
                nextCompanyId := st.nextCompanyId + 1 }
              djId dj args orc st.nextCompanyId
      · simp only [hc]
        by_cases hcf : companyCreateFails st (pyOr dj.company_name "Unknown") orc
        · simp [hcf]
        · simp only [hcf]
          simpa using promoteCreateJob_discovered_shape
            { st with
              companies := st.companies ++
                [⟨st.nextCompanyId, pyOr dj.company_name "Unknown", none,
                  noneIfEmpty args.sector, noneIfEmpty args.chain_focus, none, none⟩]
              nextCompanyId := st.nextCompanyId + 1 }
            djId dj args orc st.nextCompanyId

theorem dismiss_discovered_shape (st : DBState) (djId : Nat) (confirmed : Bool) :
    (dismiss st djId confirmed).1.discovered = st.discovered ∨
    (dismiss st djId confirmed).1.discovered =
      update_discovered_job_status st.discovered djId "dismissed" none := by
  unfold dismiss
  cases hf : get_discovered_job st djId with
  | none => simp
  | some dj =>
    by_cases hs : dj.status ≠ "pending"
    · simp [hs]
    · by_cases hc : confirmed
      · simp [hs, hc]
      · simp [hs, hc]

theorem DJInv_promote (st : DBState) (djId : Nat) (args : PromoteArgs)
    (orc : PersistOracle) (h : DJInv st) : DJInv (promote st djId args orc).1 := by
  rcases promote_discovered_shape st djId args orc with hsh | ⟨jid, hsh⟩
  · intro dj hm
    rw [hsh] at hm
    exact h dj hm
  · intro dj hm
    rw [hsh] at hm
    rcases mem_update_status _ _ _ _ _ hm with ⟨d, _, heq⟩ | hold
    · subst heq
      simp
    · exact h dj hold

theorem DJInv_dismiss (st : DBState) (djId : Nat) (confirmed : Bool)
    (h : DJInv st) : DJInv (dismiss st djId confirmed).1 := by
  rcases dismiss_discovered_shape st djId confirmed with hsh | hsh
  · intro dj hm
    rw [hsh] at hm
    exact h dj hm
  · intro dj hm
    rw [hsh] at hm
    rcases mem_update_status _ _ _ _ _ hm with ⟨d, _, heq⟩ | hold
    · subst heq
      simp
    · exact h dj hold

/-- C10: every store reachable through the discovery workflow operations
(discovery-cycle creation, promotion, dismissal) satisfies the staging
invariant: a discovered job has a non-null promoted_to_job_id exactly when
its status is promoted — creation starts records at pending with a null link,
promotion writes both fields in one update, and dismissal writes a null
link. -/
theorem C10_staging_invariant (st : DBState) (h : Reachable st) :
    ∀ dj ∈ st.discovered, (dj.promoted_to_job_id ≠ none ↔ dj.status = "promoted") := by
  induction h with
  | init =>
    intro dj hm
    simp [DBState.init] at hm
  | run st cands fail i raw now _ ih =>
    exact DJInv_runLoop cands st fail i raw now ih
  | promote st djId args orc _ ih =>
    exact DJInv_promote st djId args orc ih
  | dismiss st djId confirmed _ ih =>
    exact DJInv_dismiss st djId confirmed ih

theorem C10_witness :
    ((mkDiscoveredRow DBState.init sampleCand "raw" none).promoted_to_job_id ≠ none ↔
      (mkDiscoveredRow DBState.init sampleCand "raw" none).status = "promoted") :=
  C10_staging_invariant _
    (Reachable.run DBState.init [sampleCand] (fun _ => false) 0 "raw" none Reachable.init)
    (mkDiscoveredRow DBState.init sampleCand "raw" none) (by decide)

/-- C7 counterexample: an element whose url is present as the empty string is
falsy in Python, so the validation branch is skipped: the candidate keeps
url equal to the empty string (not None) and its parse-error flag stays
false, contradicting the claim for that element. -/
theorem C7_counterexample :
    normalizeObj [("url", Json.str "")] =
      some ⟨Json.str "[No Title]", Json.str "Unknown", Json.str "",
        Json.str "", false⟩ ∧
    Json.str "" ≠ Json.null :=
  ⟨rfl, fun h => Json.noConfusion h⟩

/-- C7 amended: for every parsed element whose url is present as a nonempty
string that does not start with http or https, normalization nulls the url
and sets the parse-error flag, while title, company and requirements are
still retained from the element or defaulted. (The amendment restricts the
claim to nonempty string urls: an empty-string url is falsy and skips
validation entirely, and a truthy non-string url makes Python raise
AttributeError instead of producing a candidate.) -/
theorem C7_bad_scheme_url (fields : List (String × Json)) (s : String)
    (hurl : objGet fields "url" = some (Json.str s))
    (hne : s ≠ "")
    (h1 : strStarts s "http://" = false)
    (h2 : strStarts s "https://" = false) :
    normalizeObj fields =
      some ⟨(objGet fields "title").getD (.str "[No Title]"),
        (objGet fields "company").getD (.str "Unknown"), Json.null,
        (objGet fields "requirements").getD (.str ""), true⟩ := by
  have hv : validateUrl (Json.str s) = some (Json.null, true) := by
    unfold validateUrl
    have ht : jsonTruthy (Json.str s) = true := by
      simp [jsonTruthy, hne]
    rw [ht]
    simp [h1, h2]
  unfold normalizeObj
  rw [hurl]
  simp only [Option.getD_some, hv]

theorem C7_witness :
    normalizeObj [("url", Json.str "ftp://jobs.example"), ("title", Json.str "T")] =
      some ⟨Json.str "T", Json.str "Unknown", Json.null, Json.str "", true⟩ :=
  C7_bad_scheme_url [("url", Json.str "ftp://jobs.example"), ("title", Json.str "T")]
    "ftp://jobs.example" rfl (by decide) rfl rfl

theorem extract_parses (raw js : String)
    (h : extract_json_from_response raw = some js) : (jsonParse js).isSome = true := by
  unfold extract_json_from_response at h
  by_cases h0 : raw = ""
  · rw [if_pos h0] at h
    cases h
  · rw [if_neg h0] at h
    by_cases h1 : (jsonParse raw).isSome
    · rw [if_pos h1] at h
      cases h
      exact h1
    · rw [if_neg h1] at h
      cases hf : (codeBlocks raw).find? (fun m => (jsonParse (pyStrip m)).isSome) with
      | some m =>
        simp only [hf] at h
        cases h
        have h4 := List.find?_some hf
        simpa using h4
      | none =>
        simp only [hf] at h
        cases ha : arrMatch raw with
        | some t =>
          simp only [ha] at h
          by_cases h2 : (jsonParse t).isSome
          · rw [if_pos h2] at h
            cases h
            exact h2
          · rw [if_neg h2] at h
            cases h
        | none =>
          simp only [ha] at h
          cases h

/-- C8 counterexample: the claim asserts an input exists that reaches the
JSON-decode-failure branch of parse_jobs; in fact no input does — extraction
only ever returns a string it has itself already decoded successfully, so
the second decode never fails on any input. -/
theorem C8_counterexample :
    ¬ ∃ raw js, extract_json_from_response raw = some js ∧ jsonParse js = none := by
  rintro ⟨raw, js, h1, h2⟩
  have h3 := extract_parses raw js h1
  rw [h2] at h3
  cases h3

/-- C8 amended: the decode-failure branch of parse_jobs is dead code — every
string returned by extract_json_from_response decodes successfully, so the
parser never returns the decoder-message candidate; a whole-input decode
failure is instead reported through the no-extraction fallback carrying up to
500 characters of the raw input. -/
theorem C8_decode_branch_dead (raw js : String)
    (h : extract_json_from_response raw = some js) :
    ∃ v, jsonParse js = some v := by
  have h3 := extract_parses raw js h
  exact Option.isSome_iff_exists.mp h3

theorem C8_witness : ∃ v, jsonParse "[]" = some v :=
  C8_decode_branch_dead "[]" "[]" rfl

theorem normalizeObj_wf (fields : List (String × Json))
    (h : wellFormedJob (Json.obj fields) = true) :
    ∃ c, normalizeObj fields = some c ∧ c.parse_error = false := by
  simp only [wellFormedJob] at h
  cases hu : objGet fields "url" with
  | none =>
    refine ⟨⟨(objGet fields "title").getD (.str "[No Title]"),
      (objGet fields "company").getD (.str "Unknown"), Json.null,
      (objGet fields "requirements").getD (.str ""), false⟩, ?_, rfl⟩
    simp [normalizeObj, hu, validateUrl, jsonTruthy]
  | some u =>
    simp only [hu] at h
    cases u with
    | str s =>
      have h2 : (strStarts s "http://" || strStarts s "https://") = true := h
      have hne : s ≠ "" := by
        intro he
        subst he
        exact absurd h2 (by decide)
      have hv : validateUrl (Json.str s) = some (Json.str s, false) := by
        unfold validateUrl
        have ht : jsonTruthy (Json.str s) = true := by
          simp [jsonTruthy, hne]
        rw [ht]
        simp [h2]
      refine ⟨⟨(objGet fields "title").getD (.str "[No Title]"),
        (objGet fields "company").getD (.str "Unknown"), Json.str s,
        (objGet fields "requirements").getD (.str ""), false⟩, ?_, rfl⟩
      unfold normalizeObj
      rw [hu]
      simp only [Option.getD_some, hv]
    | null => exact Bool.noConfusion h
    | bool b => exact Bool.noConfusion h
    | num lx => exact Bool.noConfusion h
    | arr elems => exact Bool.noConfusion h
    | obj fs => exact Bool.noConfusion h

theorem normalizeJobs_wf (elems : List Json)
    (hwf : ∀ j ∈ elems, wellFormedJob j = true) :
    ∃ L, normalizeJobs elems = some L ∧
      List.Forall₂ (fun j c =>
        (∃ fields, j = Json.obj fields ∧ normalizeObj fields = some c) ∧
        c.parse_error = false) elems L := by
  induction elems with
  | nil => exact ⟨[], rfl, List.Forall₂.nil⟩
  | cons j rest ih =>
    have hj := hwf j (List.mem_cons_self j rest)
    obtain ⟨L, hL, hF⟩ := ih (fun x hx => hwf x (List.mem_cons_of_mem j hx))
    cases j with
    | obj fields =>
      obtain ⟨c, hc, hce⟩ := normalizeObj_wf fields hj
      refine ⟨c :: L, ?_, List.Forall₂.cons ⟨⟨fields, rfl, hc⟩, hce⟩ hF⟩
      simp only [normalizeJobs, hc, hL]
    | null => exact Bool.noConfusion hj
    | bool b => exact Bool.noConfusion hj
    | num lx => exact Bool.noConfusion hj
    | str s => exact Bool.noConfusion hj
    | arr es => exact Bool.noConfusion hj

/-- C4 counterexample: the empty array is a valid JSON array all of whose
(zero) elements are well-formed, yet the parser returns one synthetic
parse-error candidate rather than zero candidates, because normalization
retained nothing. -/
theorem C4_counterexample :
    jsonParse "[]" = some (Json.arr []) ∧
    parse_jobs "[]" =
      some [⟨Json.str "[PARSE ERROR]", Json.str "Unknown", Json.null,
        Json.str "No valid jobs found in response", true⟩] :=
  ⟨rfl, rfl⟩

/-- C4 amended: for every input that is a valid JSON array of well-formed
job objects, with at least one element, the parser returns exactly one
candidate per array element, in order, each with parse-error false; for the
empty array it instead returns the single synthetic parse-error candidate
(the zero-retained fallback the spec itself prescribes). -/
theorem C4_array_of_wellformed (raw : String) (elems : List Json)
    (hparse : jsonParse raw = some (Json.arr elems))
    (hne : elems ≠ [])
    (hwf : ∀ j ∈ elems, wellFormedJob j = true) :
    ∃ L, parse_jobs raw = some L ∧ L.length = elems.length ∧
      List.Forall₂ (fun j c =>
        (∃ fields, j = Json.obj fields ∧ normalizeObj fields = some c) ∧
        c.parse_error = false) elems L := by
  have hraw : raw ≠ "" := by
    intro he
    subst he
    rw [show jsonParse "" = none from rfl] at hparse
    cases hparse
  have hex : extract_json_from_response raw = some raw := by
    unfold extract_json_from_response
    rw [if_neg hraw, if_pos (by rw [hparse]; rfl)]
  obtain ⟨L, hL, hF⟩ := normalizeJobs_wf elems hwf
  have hlen := List.Forall₂.length_eq hF
  have hLne : L.isEmpty = false := by
    cases L with
    | nil =>
      exfalso
      apply hne
      have h0 : elems.length = 0 := by simpa using hlen
      exact List.length_eq_zero.mp h0
    | cons a t => rfl
  refine ⟨L, ?_, hlen.symm, hF⟩
  unfold parse_jobs
  simp only [hex, if_neg hraw, hparse, hL, hLne]
  simp

theorem C4_witness :
    ∃ L, parse_jobs "[\x7b\x7d]" = some L ∧ L.length = [Json.obj []].length ∧
      List.Forall₂ (fun j c =>
        (∃ fields, j = Json.obj fields ∧ normalizeObj fields = some c) ∧
        c.parse_error = false) [Json.obj []] L :=
  C4_array_of_wellformed "[\x7b\x7d]" [Json.obj []] rfl (List.cons_ne_nil _ _)
    (by
      intro j hj
      rw [List.mem_singleton] at hj
      subst hj
      rfl)

theorem mem_subStrs (s : String) (i k : Nat) :
    String.mk ((s.toList.drop i).take k) ∈ subStrs s := by
  unfold subStrs
  rw [List.mem_flatten]
  refine ⟨(List.range (s.toList.length + 1)).map
    (fun k2 => String.mk ((s.toList.drop (min i s.toList.length)).take k2)), ?_, ?_⟩
  · exact List.mem_map.mpr ⟨min i s.toList.length,
      List.mem_range.mpr (by omega), rfl⟩
  · apply List.mem_map.mpr
    refine ⟨min k s.toList.length, List.mem_range.mpr (by omega), ?_⟩
    have hd : s.toList.drop (min i s.toList.length) = s.toList.drop i := by
      rcases Nat.le_total i s.toList.length with hle | hle
      · rw [Nat.min_eq_left hle]
      · rw [Nat.min_eq_right hle, List.drop_eq_nil_of_le hle,
          List.drop_eq_nil_of_le (Nat.le_refl _)]
    rw [hd]
    rcases Nat.le_total k s.toList.length with hk | hk
    · rw [Nat.min_eq_left hk]
    · rw [Nat.min_eq_right hk]
      have hlen2 : (s.toList.drop i).length ≤ s.toList.length := by
        rw [List.length_drop]
        omega
      rw [List.take_of_length_le hlen2, List.take_of_length_le (Nat.le_trans hlen2 hk)]

theorem firstIdx_drop (p : Char → Bool) : ∀ (l : List Char) (i : Nat),
    firstIdx p l = some i → i < l.length ∧ ∃ c r, l.drop i = c :: r ∧ p c = true := by
  intro l
  induction l with
  | nil => intro i h; cases h
  | cons a t ih =>
    intro i h
    unfold firstIdx at h
    by_cases hp : p a
    · rw [if_pos hp] at h
      cases h
      exact ⟨Nat.succ_pos _, a, t, rfl, hp⟩
    · rw [if_neg hp] at h
      cases hf : firstIdx p t with
      | none =>
        rw [hf] at h
        cases h
      | some i2 =>
        rw [hf] at h
        have hi : i = i2 + 1 := by
          have := Option.map_eq_some'.mp h
          rcases this with ⟨a2, ha2, hb⟩
          cases ha2.symm.trans rfl
          omega
        subst hi
        obtain ⟨hlt, c, r, hd2, hc⟩ := ih i2 hf
        exact ⟨by simpa using Nat.succ_lt_succ hlt, c, r, hd2, hc⟩

theorem lastIdx_mem (p : Char → Bool) (cs : List Char) (j : Nat)
    (h : lastIdx p cs = some j) :
    j < cs.length ∧ ∃ c, cs[j]? = some c ∧ p c = true := by
  unfold lastIdx at h
  cases hf : firstIdx p cs.reverse with
  | none =>
    rw [hf] at h
    cases h
  | some k =>
    rw [hf] at h
    cases h
    obtain ⟨hlt, c, r, hd, hc⟩ := firstIdx_drop p cs.reverse k hf
    rw [List.length_reverse] at hlt
    have hrk : cs.reverse[k]? = some c := by
      have h0 : (cs.reverse.drop k)[0]? = some c := by
        rw [hd]
        simp
      rw [List.getElem?_drop] at h0
      simpa using h0
    have hrev := List.getElem?_reverse (l := cs) (by simpa using hlt)
    rw [hrev] at hrk
    refine ⟨by omega, c, hrk, hc⟩

theorem arrMatch_spec (s : String) (t : String) (h : arrMatch s = some t) :
    t ∈ subStrs s ∧ t.toList.head? = some '[' ∧ t.toList.getLast? = some ']' := by
  unfold arrMatch at h
  dsimp only at h
  cases hi : firstIdx (fun c => c = '[') s.toList with
  | none =>
    rw [hi] at h
    cases hj : lastIdx (fun c => c = ']') s.toList with
    | none => rw [hj] at h; cases h
    | some j => rw [hj] at h; cases h
  | some i =>
    rw [hi] at h
    cases hj : lastIdx (fun c => c = ']') s.toList with
    | none => rw [hj] at h; cases h
    | some j =>
      rw [hj] at h
      dsimp only at h
      by_cases hij : i < j
      · rw [if_pos hij] at h
        cases h
        obtain ⟨hilt, c, r, hdrop, hcp⟩ := firstIdx_drop _ s.toList i hi
        have hcc : c = '[' := by simpa using hcp
        subst hcc
        obtain ⟨hjlt, c2, hget, hcp2⟩ := lastIdx_mem _ s.toList j hj
        have hcc2 : c2 = ']' := by simpa using hcp2
        subst hcc2
        refine ⟨?_, rfl, ?_⟩
        · have hE : ('[' :: (s.toList.drop (i + 1)).take (j - (i + 1)) ++ [']']) =
              (s.toList.drop i).take (j - i + 1) := by
            have hd1 : s.toList.drop i = '[' :: s.toList.drop (i + 1) := by
              have hcons := List.drop_eq_getElem_cons (l := s.toList) (n := i) hilt
              rw [hcons] at hdrop ⊢
              rw [List.cons.injEq] at hdrop
              rw [hdrop.1]
            have h2 : (s.toList.drop (i + 1)).take (j - i - 1) ++ [']'] =
                (s.toList.drop (i + 1)).take (j - i) := by
              have hji : j - i = (j - i - 1) + 1 := by omega
              rw [hji, List.take_succ]
              have h3 : (s.toList.drop (i + 1))[j - i - 1]? = some ']' := by
                rw [List.getElem?_drop]
                have harith : i + 1 + (j - i - 1) = j := by omega
                rw [harith, hget]
              rw [h3]
              rfl
            have hsub : j - (i + 1) = j - i - 1 := by omega
            rw [hsub, List.cons_append, h2, hd1, ← List.take_succ_cons]
          rw [show String.mk ('[' :: (s.toList.drop (i + 1)).take (j - (i + 1)) ++ [']']) =
              String.mk ((s.toList.drop i).take (j - i + 1)) from congrArg String.mk hE]
          exact mem_subStrs s i (j - i + 1)
        · show (('[' :: (s.toList.drop (i + 1)).take (j - (i + 1))) ++ [']']).getLast? = some ']'
          exact List.getLast?_concat _
      · rw [if_neg hij] at h
        cases h

/-- C5: for every input that is not valid JSON, contains no fenced code
block, and contains no bracketed substring that parses as JSON, the parser
returns exactly one candidate, flagged as a parse error, whose requirements
field is the first at most 500 characters of the input — and exactly the
string Empty response when the input is empty. -/
theorem C5_no_extraction_fallback (raw : String)
    (hjson : jsonParse raw = none)
    (hfence : codeBlocks raw = [])
    (hbr : ∀ t ∈ subStrs raw, t.toList.head? = some '[' →
      t.toList.getLast? = some ']' → jsonParse t = none) :
    parse_jobs raw =
      some [⟨Json.str "[PARSE ERROR]", Json.str "Unknown", Json.null,
        Json.str (if raw = "" then "Empty response" else raw.take 500), true⟩] := by
  have hex : extract_json_from_response raw = none := by
    unfold extract_json_from_response
    by_cases h0 : raw = ""
    · rw [if_pos h0]
    · rw [if_neg h0]
      simp only [hjson, hfence, Option.isSome_none, Bool.false_eq_true, if_false,
        List.find?_nil]
      cases ha : arrMatch raw with
      | none => rfl
      | some t =>
        obtain ⟨hmem, hhd, hlast⟩ := arrMatch_spec raw t ha
        have hnone := hbr t hmem hhd hlast
        simp [hnone]
  unfold parse_jobs
  rw [hex]
  rfl

set_option maxRecDepth 10000 in
theorem C5_witness :
    parse_jobs "no json here" =
      some [⟨Json.str "[PARSE ERROR]", Json.str "Unknown", Json.null,
        Json.str (if "no json here" = "" then "Empty response"
          else ("no json here").take 500), true⟩] :=
  C5_no_extraction_fallback "no json here" rfl rfl
    (by
      intro t hm hhd hlast
      exfalso
      have hno : ∀ t2 ∈ subStrs "no json here",
          ¬ (t2.toList.head? = some '[') := by decide
      exact hno t hm hhd)
